import Mathlib

/-!
Verification of the batch orchestration engine in `birdnet_batch.py`:
file discovery (`find_audio_files`), the per-file detection adapter
(`analyze_one_to_csv`), the batch dispatchers (`analyze_batch_to_csv`,
`analyze_batch_with_progress`) and the merge compiler
(`compile_master_csv`).

The filesystem is modelled as a flat list of entries, each carrying an
absolute canonical path (a list of components), a directory flag, and —
for files that hold CSV data — a list of rows.  Paths are canonical by
construction (no symlinks are modelled), matching the source's use of
`Path.resolve()` on the base directory.
-/

deriving instance DecidableEq for Except

namespace BirdnetBatch

/-- A filesystem path as a list of components of the absolute canonical
path. -/
abbrev FPath := List String

/-- One filesystem entry: its canonical path, whether it is a directory,
and (for files read as CSV) its rows.  Directories carry no rows. -/
structure Entry where
  path : FPath
  dir : Bool
  rows : List (List String)
deriving DecidableEq, Repr

/-- A filesystem: a finite list of entries, in deterministic traversal
order (the model's stand-in for the OS's stable directory order). -/
abbrev FS := List Entry

/-- `AUDIO_EXTS` from the source: the fixed allow-list of audio
extensions. -/
def AUDIO_EXTS : List String := [".wav", ".flac", ".mp3", ".ogg", ".m4a"]

/-- `CSV_HEADER` from the source: the fixed 5-column header row. -/
def CSV_HEADER : List String := ["file", "start_s", "end_s", "label", "confidence"]

/-- The final component of a path, as Python's `Path.name` (empty for an
empty path). -/
def pathName (p : FPath) : String := p.getLast?.getD ""

/-- Python's `str.lower()` (ASCII case folding, the only case used by
this repository's header and extension strings). -/
def pyLower (s : String) : String := String.mk (s.data.map Char.toLower)

/-- Python's `str.strip()`: remove leading and trailing whitespace. -/
def pyStrip (s : String) : String :=
  String.mk (((s.data.dropWhile Char.isWhitespace).reverse.dropWhile Char.isWhitespace).reverse)

/-- Python's `Path.suffix` on a final component: the substring from the
last dot, provided that dot is neither the first nor the last character;
otherwise the empty string. -/
def pySuffix (name : String) : String :=
  let cs := name.toList
  match (cs.reverse.findIdx? (· == '.')) with
  | none => ""
  | some j =>
    let i := cs.length - 1 - j
    if 0 < i ∧ i < cs.length - 1 then String.mk (cs.drop i) else ""

/-- Python's `Path.stem` on a final component: the part before the
suffix (the whole name when there is no suffix). -/
def pyStem (name : String) : String :=
  let cs := name.toList
  match (cs.reverse.findIdx? (· == '.')) with
  | none => name
  | some j =>
    let i := cs.length - 1 - j
    if 0 < i ∧ i < cs.length - 1 then String.mk (cs.take i) else name

/-- Glob matching on a single path component, supporting `*` and `?` as
`fnmatch` does (character classes are not used by this repository): `*`
matches any — possibly empty — run of characters, `?` exactly one. -/
def globMatch : List Char → List Char → Bool
  | [], cs => cs.isEmpty
  | '*' :: ps, cs => (List.range (cs.length + 1)).any (fun k => globMatch ps (cs.drop k))
  | '?' :: ps, _ :: cs => globMatch ps cs
  | '?' :: _, [] => false
  | p :: ps, c :: cs => p == c && globMatch ps cs
  | _ :: _, [] => false

/-- `p` lies strictly below `root` (a proper descendant). -/
def strictUnder (root p : FPath) : Bool := root.isPrefixOf p && p ≠ root

/-- `root.rglob(pat)` for a single-component pattern: every entry
strictly below `root` whose name matches the glob, in filesystem order. -/
def rglobEntries (fs : FS) (root : FPath) (pat : String) : List Entry :=
  fs.filter (fun e => strictUnder root e.path && globMatch pat.toList (pathName e.path).toList)

/-- Whether a path exists in the filesystem. -/
def pathExists (fs : FS) (p : FPath) : Bool := fs.any (fun e => e.path = p)

/-- The search roots of `find_audio_files`: when a (non-falsy) pattern is
given, the directories matching it under `base`; if none match (or no
pattern is given), `base` itself. -/
def searchRoots (fs : FS) (base : FPath) (pattern : Option String) : List FPath :=
  let roots : List FPath :=
    match pattern with
    | some pat =>
      if pat = "" then []
      else ((rglobEntries fs base pat).filter (fun e => e.dir)).map (fun e => e.path)
    | none => []
  if roots = [] then [base] else roots

/-- A candidate audio file under a root: a regular file whose suffix,
lowercased, is in the allow-list. -/
def isAudioFile (e : Entry) : Bool :=
  !e.dir && decide (pyLower (pySuffix (pathName e.path)) ∈ AUDIO_EXTS)

/-- The traversal of `find_audio_files` before deduplication: for each
search root in order, every audio file strictly below it, in filesystem
order (the `files` list of the source). -/
def traversalFiles (fs : FS) (base : FPath) (pattern : Option String) : List FPath :=
  if pathExists fs base then
    (searchRoots fs base pattern).flatMap (fun r =>
      ((rglobEntries fs r "*").filter isAudioFile).map (fun e => e.path))
  else []

/-- The source's dedup loop: walk the list keeping each path the first
time it is seen (`seen` accumulates the paths already emitted). -/
def dedupAux {α : Type} [DecidableEq α] (seen : List α) : List α → List α
  | [] => []
  | f :: rest => if f ∈ seen then dedupAux seen rest else f :: dedupAux (f :: seen) rest

/-- Deduplication preserving first occurrences, as in the source's
`seen`/`out` loop. -/
def dedupKeepFirst {α : Type} [DecidableEq α] (l : List α) : List α := dedupAux [] l

/-- The index of the first occurrence of `a` in `l` (the length of `l`
when absent). -/
def firstIndex {α : Type} [DecidableEq α] (l : List α) (a : α) : ℕ :=
  l.findIdx (· = a)

/-- `find_audio_files(base, pattern)`: returns `[]` when `base` does not
exist, else collects audio files under the search roots and
deduplicates keeping first occurrences. -/
def find_audio_files (fs : FS) (base : FPath) (pattern : Option String) : List FPath :=
  dedupKeepFirst (traversalFiles fs base pattern)

/-! ### Detection adapter (`analyze_one_to_csv`) -/

/-- One detection as returned by the external Detector: a dictionary
whose optional fields may be absent (`d.get(...)` then yields `None`).
Time and label values are carried in the string form the `csv` module
serializes them to; the confidence is a numeric value (modelled as a
rational), fed through `float(...)` and `"{:.3f}"` formatting. -/
structure Detection where
  start_time : Option String
  end_time : Option String
  common_name : Option String
  confidence : Option ℚ
deriving DecidableEq, Repr

/-- The `csv` module's cell for a possibly-missing value: `None` is
written as the empty cell, a present value as its string. -/
def strCell : Option String → String
  | none => ""
  | some s => s

/-- The decimal digit character for `n % 10`. -/
def digitChar (n : ℕ) : Char := Char.ofNat (48 + n % 10)

/-- The three fractional digits of `"{:.3f}"`: `n` (the rounded value in
thousandths) reduced mod 1000 and zero-padded to width 3. -/
def pad3 (n : ℕ) : String :=
  String.mk [digitChar (n / 100), digitChar (n / 10), digitChar n]

/-- `q * 1000` rounded to the nearest integer, ties to even, as Python's
float formatting does — computed on the numerator and denominator so
that only integer arithmetic is involved. -/
def thousandthsHalfEven (q : ℚ) : ℤ :=
  let n := q.num * 1000
  let d : ℤ := (q.den : ℤ)
  let f := Int.fdiv n d
  let r := n - d * f
  if 2 * r < d then f else if d < 2 * r then f + 1 else if f % 2 = 0 then f else f + 1

/-- Python's `f"{x:.3f}"` on a (rational-valued) number: sign, integer
part, dot, exactly three fractional digits (the magnitude rounded to
the nearest thousandth, ties to even). -/
def format3 (q : ℚ) : String :=
  let n : ℕ := (thousandthsHalfEven |q|).toNat
  (if q < 0 then "-" else "") ++ toString (n / 1000) ++ "." ++ pad3 (n % 1000)

/-- The row the adapter writes for one detection: the source file's base
name, the raw optional time and label fields, and the confidence
defaulted to `0.0` and formatted to three decimals. -/
def resultRow (fileName : String) (d : Detection) : List String :=
  [fileName, strCell d.start_time, strCell d.end_time, strCell d.common_name,
    format3 (d.confidence.getD 0)]

/-- The rows `analyze_one_to_csv` writes to the per-file CSV: the header
first, then one row per detection (`rec.detections or []`). -/
def analyzeOneRows (filePath : FPath) (dets : Option (List Detection)) : List (List String) :=
  CSV_HEADER :: (dets.getD []).map (resultRow (pathName filePath))

/-- The name of a file's parent directory (`file_path.parent.name`). -/
def parentName (p : FPath) : String := pathName p.dropLast

/-- The per-file output location `out_dir / parent.name / (stem + ".csv")`. -/
def outputPath (outDir : FPath) (f : FPath) : FPath :=
  outDir ++ [parentName f, pyStem (pathName f) ++ ".csv"]

/-- A per-file failure surfaced by the external Detector, carrying the
offending file's path. -/
structure DetectionFailure where
  file : FPath
  msg : String
deriving DecidableEq, Repr

/-- The external Detector: analyzing a file either raises a
`DetectionFailure` or yields `rec.detections` (possibly `None`). -/
abbrev Detector := FPath → Except DetectionFailure (Option (List Detection))

/-- `analyze_one_to_csv(file_path, out_dir)`: run the Detector and, on
success, produce the output location together with the CSV rows written
there.  A Detector failure propagates. -/
def analyze_one_to_csv (det : Detector) (outDir : FPath) (f : FPath) :
    Except DetectionFailure (FPath × List (List String)) :=
  match det f with
  | .error e => .error e
  | .ok dets => .ok (outputPath outDir f, analyzeOneRows f dets)

/-! ### Batch dispatchers

The sequential branch (`workers <= 1`) runs the per-file worker over the
input list in order on the caller's thread; the parallel branch hands
the argument list to `Pool.imap_unordered`, whose completion order is
modelled by an explicit scheduling function `sched` (the order in which
the pool yields results).  An exception from any task propagates out of
the iteration, aborting it. -/

/-- The per-file worker of both dispatchers (`_worker` /
`_worker_analyze`): analyze one file and return its output location. -/
def workerAnalyze (det : Detector) (outDir : FPath) (f : FPath) :
    Except DetectionFailure FPath :=
  (analyze_one_to_csv det outDir f).map Prod.fst

/-- `analyze_batch_to_csv(files, out_dir, workers)`: sequential list
comprehension when `workers <= 1`, else the pool's unordered iteration
(in `sched` order).  The first failure propagates. -/
def analyze_batch_to_csv (det : Detector) (files : List FPath) (outDir : FPath)
    (workers : ℤ) (sched : List FPath → List FPath) :
    Except DetectionFailure (List FPath) :=
  if workers ≤ 1 then
    files.mapM (workerAnalyze det outDir)
  else
    (sched files).mapM (workerAnalyze det outDir)

/-- The serial loop of `analyze_batch_with_progress`: iterate over the
argument list appending each result to `out` (the tqdm wrapper only
reports progress and does not change the values). -/
def progressLoop (det : Detector) (outDir : FPath) (out : List FPath) :
    List FPath → Except DetectionFailure (List FPath)
  | [] => .ok out
  | f :: rest =>
    match workerAnalyze det outDir f with
    | .error e => .error e
    | .ok p => progressLoop det outDir (out ++ [p]) rest

/-- `analyze_batch_with_progress(files, out_dir, workers)`: the serial
appending loop when `workers <= 1`, else the pool's unordered iteration
collected into a list, with tqdm progress as a side effect. -/
def analyze_batch_with_progress (det : Detector) (files : List FPath) (outDir : FPath)
    (workers : ℤ) (sched : List FPath → List FPath) :
    Except DetectionFailure (List FPath) :=
  if workers ≤ 1 then
    progressLoop det outDir [] files
  else
    (sched files).mapM (workerAnalyze det outDir)

/-! ### Merge compiler (`compile_master_csv`) -/

/-- The normalization the merge applies to each cell of a file's first
row before comparing: `x.strip().lower()`. -/
def cellKey (x : String) : String := pyLower (pyStrip x)

/-- The header comparand: `[x.lower() for x in CSV_HEADER]`. -/
def headerLower : List String := CSV_HEADER.map pyLower

/-- The rows one discovered CSV contributes to the master: nothing for
an empty file; the first row only when its stripped-lowercased cells
differ from the lowercased header; every later non-empty row verbatim. -/
def mergeFileRows : List (List String) → List (List String)
  | [] => []
  | first :: rest =>
    (if first.map cellKey = headerLower then [] else [first])
      ++ rest.filter (fun row => row ≠ [])

/-- The sources the merge discovers: entries matching
`out_dir.rglob("*.csv")` whose name is not the master's, in filesystem
order. -/
def compileSources (fs : FS) (outDir : FPath) (masterName : String) : List Entry :=
  (rglobEntries fs outDir "*.csv").filter (fun e => pathName e.path ≠ masterName)

/-- The full row list of the master output: one header row, then each
discovered source's contribution in discovery order. -/
def compileMasterRows (fs : FS) (outDir : FPath) (masterName : String) :
    List (List String) :=
  CSV_HEADER :: ((compileSources fs outDir masterName).map (fun e => mergeFileRows e.rows)).flatten

/-- Writing a file: any previous entry at `p` is replaced (the `"w"`
open mode truncates), and the file exists afterwards. -/
def setFile (fs : FS) (p : FPath) (rows : List (List String)) : FS :=
  fs.filter (fun e => e.path ≠ p) ++ [⟨p, false, rows⟩]

/-- The rows stored at a path (empty when absent). -/
def readRows (fs : FS) (p : FPath) : List (List String) :=
  ((fs.filter (fun e => e.path = p)).map Entry.rows).flatten

/-- `compile_master_csv(out_dir, master_name)`: compute the master rows
from the discovered sources and overwrite `out_dir/master_name` with
them, returning the updated filesystem and the master's path. -/
def compile_master_csv (fs : FS) (outDir : FPath) (masterName : String) : FS × FPath :=
  (setFile fs (outDir ++ [masterName]) (compileMasterRows fs outDir masterName),
    outDir ++ [masterName])

/-- Whether the Detector succeeds on a file. -/
def succeeds (det : Detector) (f : FPath) : Bool :=
  match det f with
  | .ok _ => true
  | .error _ => false

/-! ### Concrete fixtures used to evaluate the development -/

/-- A small example tree: `base/a` holding `f.wav`, `f.mp3`, `g.txt`. -/
def exFS : FS := [
  { path := ["base"], dir := true, rows := [] },
  { path := ["base", "a"], dir := true, rows := [] },
  { path := ["base", "a", "f.wav"], dir := false, rows := [] },
  { path := ["base", "a", "f.mp3"], dir := false, rows := [] },
  { path := ["base", "a", "g.txt"], dir := false, rows := [] }
]

/-- A Detector that fails on `base/a/f.wav` (unreadable audio) and
reports no detections on every other file. -/
def exDetFail : Detector := fun f =>
  if f = ["base", "a", "f.wav"] then
    .error { file := ["base", "a", "f.wav"], msg := "unreadable audio" }
  else .ok (some [])

/-- A Detector that succeeds with no detections on every file. -/
def exDetOk : Detector := fun _ => .ok (some [])

/-- A detection whose start time is absent, as `d.get("start_time")`
yields `None`. -/
def exDet : Detection :=
  { start_time := none, end_time := some "2.0", common_name := some "Robin",
    confidence := some (mkRat 1 2) }

/-- An output root holding one per-file CSV (with header and one data
row) beside nothing else. -/
def exMergeFS : FS := [
  { path := ["out"], dir := true, rows := [] },
  { path := ["out", "a", "f.csv"], dir := false,
    rows := [CSV_HEADER, ["f.wav", "1.0", "2.0", "Robin", "0.500"]] }
]

/-- A first row that is the header with a trailing space in one cell:
not case-insensitively equal to the header, yet stripped-equal. -/
def exSpacedHeader : List String := ["file ", "start_s", "end_s", "label", "confidence"]

/-- The shape "ends in a dot followed by exactly three decimal digits":
what the spec calls serialization with exactly 3 decimal digits. -/
def threeDecimals (s : String) : Prop :=
  ∃ a b, s = a ++ "." ++ b ∧ b.length = 3 ∧ ∀ c ∈ b.data, c.isDigit = true

/-! ### Lemmas about the dedup loop -/

theorem mem_dedupAux {α : Type} [DecidableEq α] (seen : List α) (l : List α) (p : α) :
    p ∈ dedupAux seen l ↔ p ∈ l ∧ p ∉ seen := by
  induction l generalizing seen with
  | nil => simp [dedupAux]
  | cons f rest ih =>
    by_cases hf : f ∈ seen
    · rw [show dedupAux seen (f :: rest) = dedupAux seen rest from by
        simp [dedupAux, if_pos hf], ih]
      constructor
      · rintro ⟨hp, hns⟩
        exact ⟨List.mem_cons_of_mem _ hp, hns⟩
      · rintro ⟨hp, hns⟩
        rcases List.mem_cons.1 hp with rfl | hp
        · exact absurd hf hns
        · exact ⟨hp, hns⟩
    · rw [show dedupAux seen (f :: rest) = f :: dedupAux (f :: seen) rest from by
        simp [dedupAux, if_neg hf]]
      constructor
      · intro hmem
        rcases List.mem_cons.1 hmem with rfl | hmem
        · exact ⟨List.mem_cons_self _ _, hf⟩
        · obtain ⟨hp, hns⟩ := (ih _).1 hmem
          exact ⟨List.mem_cons_of_mem _ hp,
            fun hs => hns (List.mem_cons_of_mem _ hs)⟩
      · rintro ⟨hp, hns⟩
        by_cases hpf : p = f
        · exact hpf ▸ List.mem_cons_self _ _
        · rcases List.mem_cons.1 hp with rfl | hp
          · exact absurd rfl hpf
          · exact List.mem_cons_of_mem _ ((ih _).2 ⟨hp, fun hs =>
              (List.mem_cons.1 hs).elim hpf hns⟩)

theorem dedupAux_sublist {α : Type} [DecidableEq α] (seen : List α) (l : List α) :
    List.Sublist (dedupAux seen l) l := by
  induction l generalizing seen with
  | nil => simp [dedupAux]
  | cons f rest ih =>
    by_cases hf : f ∈ seen
    · simpa [dedupAux, if_pos hf] using (ih seen).cons f
    · simpa [dedupAux, if_neg hf] using (ih (f :: seen)).cons₂ f

theorem nodup_dedupAux {α : Type} [DecidableEq α] (seen : List α) (l : List α) :
    (dedupAux seen l).Nodup := by
  induction l generalizing seen with
  | nil => simp [dedupAux]
  | cons f rest ih =>
    by_cases hf : f ∈ seen
    · simpa [dedupAux, if_pos hf] using ih seen
    · simp only [dedupAux, if_neg hf, List.nodup_cons]
      exact ⟨fun hmem => ((mem_dedupAux _ _ _).1 hmem).2 (List.mem_cons_self f _),
        ih (f :: seen)⟩

theorem firstIndex_cons_self {α : Type} [DecidableEq α] (f : α) (rest : List α) :
    firstIndex (f :: rest) f = 0 := by
  simp [firstIndex, List.findIdx_cons]

theorem firstIndex_cons_ne {α : Type} [DecidableEq α] {f a : α} (rest : List α)
    (h : f ≠ a) : firstIndex (f :: rest) a = firstIndex rest a + 1 := by
  simp [firstIndex, List.findIdx_cons, h]

theorem pairwise_firstIndex_dedupAux {α : Type} [DecidableEq α] (seen : List α) (l : List α) :
    (dedupAux seen l).Pairwise (fun a b => firstIndex l a < firstIndex l b) := by
  induction l generalizing seen with
  | nil => simp [dedupAux]
  | cons f rest ih =>
    have transfer : ∀ s : List α, f ∈ s →
        (dedupAux s rest).Pairwise
          (fun a b => firstIndex (f :: rest) a < firstIndex (f :: rest) b) := by
      intro s hfs
      rw [List.pairwise_iff_forall_sublist]
      intro a b hsub
      have ha := (mem_dedupAux s rest a).1 (hsub.subset (by simp))
      have hb := (mem_dedupAux s rest b).1 (hsub.subset (by simp))
      have haf : f ≠ a := fun h => ha.2 (h ▸ hfs)
      have hbf : f ≠ b := fun h => hb.2 (h ▸ hfs)
      have := List.pairwise_iff_forall_sublist.1 (ih s) hsub
      rw [firstIndex_cons_ne rest haf, firstIndex_cons_ne rest hbf]
      exact Nat.succ_lt_succ this
    by_cases hf : f ∈ seen
    · simpa [dedupAux, if_pos hf] using transfer seen hf
    · simp only [dedupAux, if_neg hf, List.pairwise_cons]
      refine ⟨fun b hmem => ?_, transfer (f :: seen) (List.mem_cons_self f _)⟩
      have hb := (mem_dedupAux _ _ _).1 hmem
      have hbf : f ≠ b := fun h => hb.2 (h ▸ List.mem_cons_self f _)
      rw [firstIndex_cons_self, firstIndex_cons_ne rest hbf]
      exact Nat.succ_pos _

/-- Membership in the pre-dedup traversal implies the path belongs to a
regular file of the filesystem with an allow-listed extension. -/
theorem traversalFiles_property (fs : FS) (base : FPath) (pattern : Option String)
    (p : FPath) (hp : p ∈ traversalFiles fs base pattern) :
    (∃ e ∈ fs, e.path = p ∧ e.dir = false) ∧
      pyLower (pySuffix (pathName p)) ∈ AUDIO_EXTS := by
  unfold traversalFiles at hp
  by_cases hex : pathExists fs base
  · rw [if_pos hex] at hp
    obtain ⟨r, _, hpr⟩ := List.mem_flatMap.1 hp
    obtain ⟨e, hef, rfl⟩ := List.mem_map.1 hpr
    have he := List.mem_filter.1 hef
    have heg := List.mem_filter.1 he.1
    have haud := he.2
    unfold isAudioFile at haud
    simp only [Bool.and_eq_true] at haud
    have hdir : e.dir = false := by simpa using haud.1
    have hext : pyLower (pySuffix (pathName e.path)) ∈ AUDIO_EXTS :=
      of_decide_eq_true haud.2
    exact ⟨⟨e, heg.1, rfl, hdir⟩, hext⟩
  · rw [if_neg hex] at hp
    exact absurd hp (List.not_mem_nil p)

/-! ### C1: discovery returns deduplicated, order-preserving, allow-listed files -/

/-- C1: for every filesystem, base directory and optional folder glob
pattern, `find_audio_files` returns a list with no duplicate canonical
paths, in which every path is a regular file of the filesystem whose
extension, case-folded, is in the fixed allow-list; the list has exactly
the members of the traversal and lists them in the order of their first
occurrence in the traversal. -/
theorem c1_discovery_nodup_ordered_allowlisted (fs : FS) (base : FPath)
    (pattern : Option String) :
    (find_audio_files fs base pattern).Nodup ∧
    (∀ p ∈ find_audio_files fs base pattern,
      (∃ e ∈ fs, e.path = p ∧ e.dir = false) ∧
        pyLower (pySuffix (pathName p)) ∈ AUDIO_EXTS) ∧
    (∀ p, p ∈ find_audio_files fs base pattern ↔ p ∈ traversalFiles fs base pattern) ∧
    (find_audio_files fs base pattern).Pairwise
      (fun a b => firstIndex (traversalFiles fs base pattern) a
        < firstIndex (traversalFiles fs base pattern) b) := by
  refine ⟨nodup_dedupAux [] _, ?_, ?_, pairwise_firstIndex_dedupAux [] _⟩
  · intro p hp
    exact traversalFiles_property fs base pattern p ((mem_dedupAux [] _ p).1 hp).1
  · intro p
    rw [show find_audio_files fs base pattern
        = dedupAux [] (traversalFiles fs base pattern) from rfl, mem_dedupAux]
    simp

/-- Witness for C1: the example tree's discovery contains
`base/a/f.wav`, which is a regular file with an allow-listed
extension. -/
theorem c1_witness :
    (["base", "a", "f.wav"] ∈ find_audio_files exFS ["base"] none) ∧
    ((∃ e ∈ exFS, e.path = ["base", "a", "f.wav"] ∧ e.dir = false) ∧
      pyLower (pySuffix (pathName ["base", "a", "f.wav"])) ∈ AUDIO_EXTS) :=
  ⟨by decide,
    (c1_discovery_nodup_ordered_allowlisted exFS ["base"] none).2.1 _ (by decide)⟩

/-! ### C7: discovery on a nonexistent base -/

/-- C7: when the base path does not exist, `find_audio_files` returns
the empty list (and, being a total function, raises nothing), for any
pattern. -/
theorem c7_nonexistent_base_empty (fs : FS) (base : FPath) (pattern : Option String)
    (h : pathExists fs base = false) :
    find_audio_files fs base pattern = [] := by
  rw [show find_audio_files fs base pattern
      = dedupAux [] (traversalFiles fs base pattern) from rfl,
    traversalFiles, if_neg (by simp [h])]
  rfl

/-- Witness for C7 at a concrete nonexistent base. -/
theorem c7_witness :
    pathExists exFS ["nope"] = false ∧
      find_audio_files exFS ["nope"] (some "*") = [] :=
  ⟨by decide, c7_nonexistent_base_empty exFS ["nope"] (some "*") (by decide)⟩

/-! ### C9: the file-to-output mapping is not injective in general -/

/-- C9 counterexample: `base/a/f.wav` and `base/a/f.mp3` are distinct
files of one discovered list, yet they are assigned the same output
location `out/a/f.csv`. -/
theorem c9_output_collision :
    (["base", "a", "f.wav"] ∈ find_audio_files exFS ["base"] none) ∧
    (["base", "a", "f.mp3"] ∈ find_audio_files exFS ["base"] none) ∧
    (["base", "a", "f.wav"] : FPath) ≠ ["base", "a", "f.mp3"] ∧
    outputPath ["out"] ["base", "a", "f.wav"] = outputPath ["out"] ["base", "a", "f.mp3"] := by
  decide

/-- Right cancellation of string concatenation. -/
theorem string_append_right_cancel {a b t : String} (h : a ++ t = b ++ t) : a = b := by
  apply String.ext
  have hd := congrArg String.data h
  rw [String.data_append, String.data_append] at hd
  exact List.append_cancel_right hd

/-- C9 (amended): the output location depends only on the pair (parent
folder name, file stem); the mapping is injective exactly on file lists
whose such pairs are pairwise distinct. -/
theorem c9_injective_on_distinct_keys (outDir : FPath) (files : List FPath)
    (hkeys : (files.map (fun f => (parentName f, pyStem (pathName f)))).Nodup) :
    ∀ f ∈ files, ∀ g ∈ files, outputPath outDir f = outputPath outDir g → f = g := by
  intro f hf g hg heq
  unfold outputPath at heq
  have hpair := List.append_cancel_left heq
  have hparent : parentName f = parentName g := by
    injection hpair with h1 _
  have hstem : pyStem (pathName f) = pyStem (pathName g) := by
    injection hpair with _ h2
    injection h2 with h2 _
    exact string_append_right_cancel h2
  exact List.inj_on_of_nodup_map hkeys hf hg (by rw [hparent, hstem])

/-- Witness for C9 (amended): on a two-file list with distinct
(parent, stem) keys the hypotheses hold and the conclusion applies. -/
theorem c9_witness :
    (["base", "a", "f.wav"] : FPath) = ["base", "a", "f.wav"] :=
  c9_injective_on_distinct_keys ["out"]
    [["base", "a", "f.wav"], ["base", "b", "g.wav"]] (by decide)
    ["base", "a", "f.wav"] (by decide) ["base", "a", "f.wav"] (by decide) (by decide)

/-! ### C2: row serialization by the adapter -/

/-- Every character produced by `digitChar` is a decimal digit. -/
theorem digitChar_isDigit (m : ℕ) : (digitChar m).isDigit = true := by
  unfold digitChar
  have h : m % 10 < 10 := Nat.mod_lt _ (by norm_num)
  generalize m % 10 = k at h
  interval_cases k <;> decide

/-- `pad3` always produces exactly three decimal digit characters. -/
theorem pad3_shape (m : ℕ) :
    (pad3 m).length = 3 ∧ ∀ c ∈ (pad3 m).data, c.isDigit = true := by
  refine ⟨rfl, ?_⟩
  intro c hc
  have hmem : c = digitChar (m / 100) ∨ c = digitChar (m / 10) ∨ c = digitChar m := by
    simpa [pad3] using hc
  rcases hmem with rfl | rfl | rfl <;> exact digitChar_isDigit _

/-- `format3` always serializes to a string ending in a dot followed by
exactly three decimal digits. -/
theorem format3_threeDecimals (q : ℚ) : threeDecimals (format3 q) := by
  refine ⟨(if q < 0 then "-" else "") ++ toString ((thousandthsHalfEven |q|).toNat / 1000),
    pad3 ((thousandthsHalfEven |q|).toNat % 1000), ?_, (pad3_shape _).1, (pad3_shape _).2⟩
  unfold format3
  rw [String.append_assoc, String.append_assoc]

/-- C2 counterexample: a Detection whose start time is missing is
written with an empty second cell — `0.0` is not substituted for the
missing field — while the present confidence is formatted to three
decimals. -/
theorem c2_missing_field_empty_not_zero :
    resultRow "f.wav" exDet = ["f.wav", "", "2.0", "Robin", "0.500"] ∧
    ("" : String) ≠ "0.0" ∧ ("" : String) ≠ "0.000" := by
  decide

/-- C2 (amended): each Detection's row uses the source file's base name
(not the full path) in the file column; the confidence cell is the
confidence defaulted to `0.0` and serialized with exactly 3 decimal
digits, a missing confidence yielding `0.000`; a missing start time,
end time or label is written as an empty cell. -/
theorem c2_row_format (p : FPath) (dets : List Detection) (d : Detection)
    (hd : d ∈ dets) :
    resultRow (pathName p) d ∈ (analyzeOneRows p (some dets)).tail ∧
    (resultRow (pathName p) d).head? = some (pathName p) ∧
    (resultRow (pathName p) d).getLast? = some (format3 (d.confidence.getD 0)) ∧
    (d.confidence = none → (resultRow (pathName p) d).getLast? = some "0.000") ∧
    (d.start_time = none → (resultRow (pathName p) d).get? 1 = some "") ∧
    (d.end_time = none → (resultRow (pathName p) d).get? 2 = some "") ∧
    (d.common_name = none → (resultRow (pathName p) d).get? 3 = some "") ∧
    threeDecimals (format3 (d.confidence.getD 0)) := by
  refine ⟨?_, rfl, by simp [resultRow], ?_, ?_, ?_, ?_, format3_threeDecimals _⟩
  · simpa [analyzeOneRows] using List.mem_map_of_mem (resultRow (pathName p)) hd
  · intro h
    simp [resultRow, h]
    decide
  · intro h; simp [resultRow, h, strCell]
  · intro h; simp [resultRow, h, strCell]
  · intro h; simp [resultRow, h, strCell]

/-- Witness for C2 (amended) at a concrete file and detection list. -/
theorem c2_witness :
    resultRow "f.wav" exDet ∈ (analyzeOneRows ["base", "a", "f.wav"] (some [exDet])).tail ∧
    (resultRow "f.wav" exDet).head? = some "f.wav" := by
  have h := c2_row_format ["base", "a", "f.wav"] [exDet] exDet (by decide)
  exact ⟨h.1, h.2.1⟩

/-! ### C6: zero detections still produce a header-only output -/

/-- C6: when the Detector succeeds on a file reporting zero detections
(`None` or an empty list), the adapter still writes the header row, so
the per-file output is exactly the header row and nothing else. -/
theorem c6_header_only (det : Detector) (outDir : FPath) (f : FPath)
    (dets : Option (List Detection)) (h : det f = .ok dets)
    (hz : dets.getD [] = []) :
    analyze_one_to_csv det outDir f = .ok (outputPath outDir f, [CSV_HEADER]) := by
  simp [analyze_one_to_csv, h, analyzeOneRows, hz]

/-- Witness for C6: the always-empty Detector yields a header-only
output on a concrete file. -/
theorem c6_witness :
    analyze_one_to_csv exDetOk ["out"] ["base", "a", "f.wav"] =
      .ok (outputPath ["out"] ["base", "a", "f.wav"], [CSV_HEADER]) :=
  c6_header_only exDetOk ["out"] ["base", "a", "f.wav"] (some []) rfl rfl

/-! ### Lemmas about the dispatchers -/

/-- Mapping the worker over files on which the Detector succeeds
produces exactly the per-file output locations, in order. -/
theorem mapM_worker_ok (det : Detector) (outDir : FPath) (l : List FPath)
    (h : ∀ f ∈ l, succeeds det f = true) :
    l.mapM (workerAnalyze det outDir) = .ok (l.map (outputPath outDir)) := by
  induction l with
  | nil => rfl
  | cons f rest ih =>
    have hf := h f (List.mem_cons_self f rest)
    rw [List.mapM_cons, ih (fun g hg => h g (List.mem_cons_of_mem f hg))]
    unfold succeeds at hf
    cases hdf : det f with
    | error e => rw [hdf] at hf; exact absurd hf (by simp)
    | ok ds =>
      show (workerAnalyze det outDir f >>= fun b => pure (b :: _)) = _
      simp [workerAnalyze, analyze_one_to_csv, hdf, Except.map]

/-- The first Detector failure in the mapped list propagates as the
whole result, whatever comes after it. -/
theorem mapM_worker_error (det : Detector) (outDir : FPath) (pre post : List FPath)
    (bad : FPath) (e : DetectionFailure)
    (hpre : ∀ f ∈ pre, succeeds det f = true) (hbad : det bad = .error e) :
    (pre ++ bad :: post).mapM (workerAnalyze det outDir) = .error e := by
  induction pre with
  | nil =>
    rw [List.nil_append, List.mapM_cons]
    show (workerAnalyze det outDir bad >>= fun b => _) = _
    rw [show workerAnalyze det outDir bad = .error e from by
      simp [workerAnalyze, analyze_one_to_csv, hbad, Except.map]]
    rfl
  | cons f rest ih =>
    have hf := hpre f (List.mem_cons_self f rest)
    rw [List.cons_append, List.mapM_cons]
    unfold succeeds at hf
    cases hdf : det f with
    | error e2 => rw [hdf] at hf; exact absurd hf (by simp)
    | ok ds =>
      show (workerAnalyze det outDir f >>= fun b => _) = _
      rw [show workerAnalyze det outDir f = .ok (outputPath outDir f) from by
        simp [workerAnalyze, analyze_one_to_csv, hdf, Except.map]]
      show ((rest ++ bad :: post).mapM (workerAnalyze det outDir) >>= _) = _
      rw [ih (fun g hg => hpre g (List.mem_cons_of_mem f hg))]
      rfl

/-- The serial loop of the progress dispatcher equals the monadic map,
prefixed by the accumulator. -/
theorem progressLoop_eq_mapM (det : Detector) (outDir : FPath) (acc l : List FPath) :
    progressLoop det outDir acc l
      = (l.mapM (workerAnalyze det outDir)).map (fun out => acc ++ out) := by
  induction l generalizing acc with
  | nil =>
    show Except.ok acc = (([].mapM (workerAnalyze det outDir)).map fun out => acc ++ out)
    rw [List.mapM_nil]
    show Except.ok acc = Except.ok (acc ++ [])
    rw [List.append_nil]
  | cons f rest ih =>
    cases hf : workerAnalyze det outDir f with
    | error e =>
      rw [show progressLoop det outDir acc (f :: rest) = .error e from by
          simp [progressLoop, hf],
        List.mapM_cons]
      show _ = ((workerAnalyze det outDir f >>= fun b => _).map _)
      rw [hf]
      rfl
    | ok p =>
      rw [show progressLoop det outDir acc (f :: rest)
          = progressLoop det outDir (acc ++ [p]) rest from by simp [progressLoop, hf],
        ih, List.mapM_cons]
      show _ = ((workerAnalyze det outDir f >>= fun b => _).map _)
      rw [hf]
      cases hrest : rest.mapM (workerAnalyze det outDir) with
      | error e => rfl
      | ok ps =>
        show Except.ok ((acc ++ [p]) ++ ps) = _
        rw [List.append_assoc]
        rfl

/-! ### C4: failure policy of the dispatcher -/

/-- C4 counterexample: with one worker, a `DetectionFailure` on the
second file makes `analyze_batch_to_csv` propagate that single failure;
the first file's successfully produced location is not returned and no
aggregate failure listing is raised. -/
theorem c4_batch_aborts_on_first_failure :
    analyze_batch_to_csv exDetFail
        [["base", "a", "g.wav"], ["base", "a", "f.wav"], ["base", "a", "h.wav"]]
        ["out"] 1 id
      = .error { file := ["base", "a", "f.wav"], msg := "unreadable audio" } := by
  decide

/-- C4 (amended): a single file's `DetectionFailure` halts the batch:
in sequential mode (`workers <= 1`) the dispatcher propagates the first
failing file's error alone — no aggregate failure is built and no list
of successful output locations is returned (the files after the failure
are never consulted). -/
theorem c4_failure_halts_batch (det : Detector) (outDir : FPath)
    (workers : ℤ) (sched : List FPath → List FPath) (pre post : List FPath)
    (bad : FPath) (e : DetectionFailure) (hw : workers ≤ 1)
    (hpre : ∀ f ∈ pre, succeeds det f = true) (hbad : det bad = .error e) :
    analyze_batch_to_csv det (pre ++ bad :: post) outDir workers sched = .error e := by
  unfold analyze_batch_to_csv
  rw [if_pos hw]
  exact mapM_worker_error det outDir pre post bad e hpre hbad

/-- Witness for C4 (amended) at a concrete failing batch. -/
theorem c4_witness :
    analyze_batch_to_csv exDetFail
        [["base", "a", "g.wav"], ["base", "a", "f.wav"], ["base", "a", "h.wav"]]
        ["out"] 1 id
      = .error { file := ["base", "a", "f.wav"], msg := "unreadable audio" } :=
  c4_failure_halts_batch exDetFail ["out"] 1 id [["base", "a", "g.wav"]]
    [["base", "a", "h.wav"]] ["base", "a", "f.wav"]
    { file := ["base", "a", "f.wav"], msg := "unreadable audio" }
    (by decide) (by decide) (by decide)

/-! ### C5: sequential mode preserves input order -/

/-- C5: with `workers <= 1` both dispatchers process the files
sequentially in input order, and when every file succeeds the returned
list of output locations is the input list's image, in the same
order. -/
theorem c5_sequential_order (det : Detector) (files : List FPath) (outDir : FPath)
    (workers : ℤ) (sched : List FPath → List FPath) (hw : workers ≤ 1)
    (hok : ∀ f ∈ files, succeeds det f = true) :
    analyze_batch_to_csv det files outDir workers sched
        = .ok (files.map (outputPath outDir)) ∧
    analyze_batch_with_progress det files outDir workers sched
        = .ok (files.map (outputPath outDir)) := by
  constructor
  · unfold analyze_batch_to_csv
    rw [if_pos hw]
    exact mapM_worker_ok det outDir files hok
  · unfold analyze_batch_with_progress
    rw [if_pos hw, progressLoop_eq_mapM, mapM_worker_ok det outDir files hok]
    simp [Except.map]

/-- Witness for C5 on a concrete two-file batch. -/
theorem c5_witness :
    analyze_batch_to_csv exDetOk [["base", "a", "f.wav"], ["base", "b", "g.wav"]]
        ["out"] 1 id
      = .ok [["out", "a", "f.csv"], ["out", "b", "g.csv"]] := by
  have h := (c5_sequential_order exDetOk [["base", "a", "f.wav"], ["base", "b", "g.wav"]]
    ["out"] 1 id (by decide) (by decide)).1
  rw [h]
  decide

/-! ### C10: the progress dispatcher refines the plain dispatcher -/

/-- C10: under the same completion schedule the two dispatchers return
the same result; and in parallel mode, for any two completion schedules
that permute the same successful input list, the two dispatchers'
location lists are permutations of each other (the same multiset). -/
theorem c10_progress_refines_batch (det : Detector) (files : List FPath)
    (outDir : FPath) (workers : ℤ) (sched sched2 : List FPath → List FPath) :
    analyze_batch_with_progress det files outDir workers sched
        = analyze_batch_to_csv det files outDir workers sched ∧
    ((∀ f ∈ files, succeeds det f = true) → (sched files).Perm files →
      (sched2 files).Perm files →
      ∃ r1 r2,
        analyze_batch_with_progress det files outDir workers sched = .ok r1 ∧
        analyze_batch_to_csv det files outDir workers sched2 = .ok r2 ∧
        r1.Perm r2) := by
  constructor
  · unfold analyze_batch_with_progress analyze_batch_to_csv
    by_cases hw : workers ≤ 1
    · rw [if_pos hw, if_pos hw, progressLoop_eq_mapM]
      cases hres : files.mapM (workerAnalyze det outDir) with
      | error e => rfl
      | ok ps => simp [Except.map]
    · rw [if_neg hw, if_neg hw]
  · intro hok hperm1 hperm2
    by_cases hw : workers ≤ 1
    · refine ⟨files.map (outputPath outDir), files.map (outputPath outDir), ?_, ?_, .refl _⟩
      · unfold analyze_batch_with_progress
        rw [if_pos hw, progressLoop_eq_mapM, mapM_worker_ok det outDir files hok]
        simp [Except.map]
      · unfold analyze_batch_to_csv
        rw [if_pos hw]
        exact mapM_worker_ok det outDir files hok
    · refine ⟨(sched files).map (outputPath outDir), (sched2 files).map (outputPath outDir),
        ?_, ?_, ?_⟩
      · unfold analyze_batch_with_progress
        rw [if_neg hw]
        exact mapM_worker_ok det outDir _ (fun f hf => hok f (hperm1.mem_iff.1 hf))
      · unfold analyze_batch_to_csv
        rw [if_neg hw]
        exact mapM_worker_ok det outDir _ (fun f hf => hok f (hperm2.mem_iff.1 hf))
      · exact (hperm1.map _).trans (hperm2.map _).symm

/-- Witness for C10 on a concrete parallel batch with two different
completion orders. -/
theorem c10_witness :
    ∃ r1 r2,
      analyze_batch_with_progress exDetOk [["base", "a", "f.wav"], ["base", "b", "g.wav"]]
          ["out"] 4 List.reverse = .ok r1 ∧
      analyze_batch_to_csv exDetOk [["base", "a", "f.wav"], ["base", "b", "g.wav"]]
          ["out"] 4 id = .ok r2 ∧
      r1.Perm r2 :=
  (c10_progress_refines_batch exDetOk [["base", "a", "f.wav"], ["base", "b", "g.wav"]]
    ["out"] 4 List.reverse id).2 (by decide) (by decide) (by decide)

/-! ### C3: merge row policy -/

/-- C3 counterexample: a first row that is the header with a trailing
space in its first cell is not case-insensitively equal to the fixed
header, yet the merge discards it instead of writing it through as
data — the comparison also strips surrounding whitespace.  In a
one-file output root whose file holds exactly that row, the master
output is the bare header with no data row. -/
theorem c3_stripped_header_not_written_through :
    exSpacedHeader.map pyLower ≠ CSV_HEADER.map pyLower ∧
    mergeFileRows [exSpacedHeader] = [] ∧
    compileMasterRows
        [{ path := ["out"], dir := true, rows := [] },
         { path := ["out", "a", "f.csv"], dir := false, rows := [exSpacedHeader] }]
        ["out"] "master_results.csv"
      = [CSV_HEADER] := by
  decide

/-- C3 (amended): for every per-file CSV discovered by the merge, an
empty resource contributes nothing; a first row equal to the fixed
header after stripping surrounding whitespace and case-folding each
cell is discarded, otherwise the first row is written through as data;
all later non-empty rows are written through verbatim, empty rows are
skipped; and the master output begins with the single header row the
merge itself writes. -/
theorem c3_merge_row_policy (fs : FS) (outDir : FPath) (masterName : String)
    (first : List String) (rest : List (List String)) :
    (compileMasterRows fs outDir masterName).head? = some CSV_HEADER ∧
    mergeFileRows [] = [] ∧
    (first.map cellKey = headerLower →
      mergeFileRows (first :: rest) = rest.filter (fun row => row ≠ [])) ∧
    (first.map cellKey ≠ headerLower →
      mergeFileRows (first :: rest) = first :: rest.filter (fun row => row ≠ [])) := by
  refine ⟨rfl, rfl, ?_, ?_⟩
  · intro h
    simp [mergeFileRows, h]
  · intro h
    simp [mergeFileRows, h]

/-- Witness for C3 (amended): both comparison branches at concrete
rows. -/
theorem c3_witness :
    mergeFileRows [exSpacedHeader, ["a", "b"], []] = [["a", "b"]] ∧
    mergeFileRows [["x", "y"], ["a", "b"], []] = [["x", "y"], ["a", "b"]] := by
  have h1 := (c3_merge_row_policy [] ["out"] "master_results.csv"
    exSpacedHeader [["a", "b"], []]).2.2.1 (by decide)
  have h2 := (c3_merge_row_policy [] ["out"] "master_results.csv"
    ["x", "y"] [["a", "b"], []]).2.2.2 (by decide)
  rw [h1, h2]
  exact ⟨by decide, by decide⟩

/-! ### C8: merge idempotence and self-exclusion -/

/-- Writing a file at a path that `pred` rejects, and that no
`pred`-accepted entry occupies, leaves the `pred`-filtered view of the
filesystem unchanged. -/
theorem filter_setFile_of_pred_false (fs : FS) (newE : Entry) (pred : Entry → Bool)
    (hnew : pred newE = false)
    (hdisj : ∀ e : Entry, pred e = true → e.path ≠ newE.path) :
    (fs.filter (fun e => e.path ≠ newE.path) ++ [newE]).filter pred = fs.filter pred := by
  induction fs with
  | nil => simp [hnew]
  | cons e rest ih =>
    by_cases hp : e.path = newE.path
    · have hpe : pred e = false := by
        cases hpred : pred e with
        | false => rfl
        | true => exact absurd hp (hdisj e hpred)
      rw [List.filter_cons_of_neg (by simp [hp]), ih,
        List.filter_cons_of_neg (by simp [hpe])]
    · rw [List.filter_cons_of_pos (by simp [hp]), List.cons_append]
      cases hpred : pred e with
      | true =>
        rw [List.filter_cons_of_pos hpred, List.filter_cons_of_pos hpred, ih]
      | false =>
        rw [List.filter_cons_of_neg (by simp [hpred]),
          List.filter_cons_of_neg (by simp [hpred]), ih]

/-- The discovered merge sources are unchanged by (over)writing the
master file itself: the master's name is excluded from discovery. -/
theorem compileSources_setFile_master (fs : FS) (outDir : FPath) (masterName : String)
    (r : List (List String)) :
    compileSources (setFile fs (outDir ++ [masterName]) r) outDir masterName
      = compileSources fs outDir masterName := by
  have hname : pathName (outDir ++ [masterName]) = masterName := by
    simp [pathName, List.getLast?_concat]
  unfold compileSources rglobEntries setFile
  rw [List.filter_filter, List.filter_filter]
  exact filter_setFile_of_pred_false fs ⟨outDir ++ [masterName], false, r⟩ _
    (by simp [hname]) (by
      intro e hpred hpath
      simp only [Bool.and_eq_true, decide_eq_true_eq] at hpred
      exact hpred.1 (by rw [hpath, hname]))

/-- Reading back a freshly written file yields the written rows. -/
theorem readRows_setFile (fs : FS) (p : FPath) (r : List (List String)) :
    readRows (setFile fs p r) p = r := by
  unfold readRows setFile
  rw [List.filter_append]
  have h1 : (fs.filter (fun e => e.path ≠ p)).filter (fun e => e.path = p) = [] := by
    induction fs with
    | nil => rfl
    | cons e rest ih =>
      by_cases hp : e.path = p
      · simp [List.filter_cons, hp, ih]
      · simp [List.filter_cons, hp, ih]
  rw [h1]
  simp

/-- C8: re-running the merge over an unchanged output root rewrites the
master with identical content: the master's own name is excluded from
discovery (never re-included as input), so the second run's sources and
hence its full row list coincide with the first run's. -/
theorem c8_merge_idempotent (fs : FS) (outDir : FPath) (masterName : String) :
    readRows (compile_master_csv (compile_master_csv fs outDir masterName).1
          outDir masterName).1 (outDir ++ [masterName])
      = readRows (compile_master_csv fs outDir masterName).1 (outDir ++ [masterName]) ∧
    ∀ e ∈ compileSources (compile_master_csv fs outDir masterName).1 outDir masterName,
      e.path ≠ outDir ++ [masterName] := by
  constructor
  · have hunfold : ∀ g : FS, (compile_master_csv g outDir masterName).1
        = setFile g (outDir ++ [masterName]) (compileMasterRows g outDir masterName) :=
      fun g => rfl
    rw [hunfold, hunfold, readRows_setFile, readRows_setFile]
    show CSV_HEADER :: _ = CSV_HEADER :: _
    rw [compileSources_setFile_master fs outDir masterName
      (compileMasterRows fs outDir masterName)]
  · intro e he hpath
    have hmem := List.mem_filter.1 he
    have hname : pathName (outDir ++ [masterName]) = masterName := by
      simp [pathName, List.getLast?_concat]
    simp only [decide_eq_true_eq] at hmem
    exact hmem.2 (by rw [hpath, hname])

/-- Witness for C8: on a concrete output root the second run's master
equals the first run's, and the discovered source is not the master. -/
theorem c8_witness :
    readRows (compile_master_csv (compile_master_csv exMergeFS ["out"] "master_results.csv").1
          ["out"] "master_results.csv").1 ["out", "master_results.csv"]
      = readRows (compile_master_csv exMergeFS ["out"] "master_results.csv").1
          ["out", "master_results.csv"] ∧
    ({ path := ["out", "a", "f.csv"], dir := false,
        rows := [CSV_HEADER, ["f.wav", "1.0", "2.0", "Robin", "0.500"]] } : Entry).path
      ≠ ["out", "master_results.csv"] :=
  ⟨(c8_merge_idempotent exMergeFS ["out"] "master_results.csv").1,
    (c8_merge_idempotent exMergeFS ["out"] "master_results.csv").2 _ (by decide)⟩

end BirdnetBatch
